import Mathlib

/-!
Verification of the badge layout/rendering core of `src/index.js`.

Strings are modelled as `List Char` (`Str`).  JavaScript numbers that the
code feeds through `Number(x) || default` are modelled as `Option Int`
(caps) or `Option ℚ` (dpi), where `none` stands for an absent or `NaN`
value; a present `0` is falsy in JavaScript and therefore also selects the
default, which the model makes explicit in `jsOrInt` / `jsOrQ`.
Real-number quantities of the renderer are modelled with `ℚ`;
`Math.round` is `jsRound` (round half up, i.e. `⌊q + 1/2⌋`).
-/

abbrev Str := List Char

/-- The whitespace characters matched by the JavaScript `\s` class that are
relevant here (space, tab, line feed, carriage return, vertical tab, form
feed, no-break space). -/
def isJsSpace (c : Char) : Bool :=
  c = ' ' || c = '\t' || c = '\n' || c = '\r' || c = '\x0b' || c = '\x0c' || c = '\xa0'

/-- `cut.replace(/\s+$/g, '')` — strip trailing whitespace. -/
def stripTrailing (s : Str) : Str :=
  (s.reverse.dropWhile isJsSpace).reverse

/-- JavaScript `String.prototype.trim`. -/
def jsTrim (s : Str) : Str :=
  stripTrailing (s.dropWhile isJsSpace)

/-- One `foldr` step grouping a string into maximal runs of non-space
characters; spaces open a new (possibly empty) group. -/
def splitWordsAux (c : Char) (acc : List Str) : List Str :=
  if isJsSpace c then [] :: acc
  else
    match acc with
    | [] => [[c]]
    | g :: gs => (c :: g) :: gs

/-- `t.split(/\s+/)` for a string `t` with no leading/trailing whitespace:
group into runs and drop the empty groups produced by space runs.  Leading
and trailing whitespace only contributes empty groups, so applying this to
the untrimmed string equals trimming first. -/
def splitWords (s : Str) : List Str :=
  (s.foldr splitWordsAux []).filter (fun w => decide (w ≠ []))

/-- `name.trim().split(/\s+/)`.  When the trimmed string is empty,
JavaScript's `split` returns `[""]` (a single empty word). -/
def jsWords (s : Str) : List Str :=
  if jsTrim s = [] then [[]] else splitWords s

/-- `words.slice(i).join(' ')`-style join with a single space. -/
def jsJoin : List Str → Str
  | [] => []
  | [w] => w
  | w :: ws => w ++ ' ' :: jsJoin ws

/-- `Number(x) || d` for an integer-valued cap: absent/`NaN` (`none`) and
`0` are falsy and give the default. -/
def jsOrInt (x : Option Int) (d : Int) : Int :=
  match x with
  | none => d
  | some v => if v = 0 then d else v

/-- Lines 186–187 of `src/index.js`:
`Math.max(1, Number(maxLineN) || DEFAULT_MAX_CHARS_LINEN)` with the default
equal to 15. -/
def effectiveCap (cap : Option Int) : Int :=
  max 1 (jsOrInt cap 15)

/-- `truncateToMaxChars(text, maxChars)` (lines 173–181).  For an integer
cap, `Math.max(0, Number(maxChars) || 0)` is `max 0 maxChars` (a cap of `0`
is falsy but the fallback is `0` as well). -/
def truncateToMaxChars (text : Str) (maxChars : Int) : Str :=
  if max 0 maxChars = 0 then []
  else if text = [] then []
  else if (text.length : Int) ≤ max 0 maxChars then text
  else stripTrailing (text.take (max 0 maxChars).toNat) ++ ['.']

/-- The `{line1, line2}` object produced by the planner. -/
structure TextPlan where
  line1 : Str
  line2 : Str
deriving DecidableEq

/-- One entry of the `candidates` array: split index and the joined
word groups `l1 = words.slice(0, i).join(' ')`, `l2 = words.slice(i).join(' ')`. -/
structure Cand where
  idx : Nat
  l1 : Str
  l2 : Str
deriving DecidableEq

/-- `diff = Math.abs(l1.length - l2.length)`. -/
def cdiff (c : Cand) : Int :=
  |(c.l1.length : Int) - (c.l2.length : Int)|

/-- The candidate generated at split index `i`. -/
def candAt (ws : List Str) (i : Nat) : Cand :=
  ⟨i, jsJoin (ws.take i), jsJoin (ws.drop i)⟩

/-- The loop `for (let i = 1; i < words.length; i++)` building `candidates`. -/
def candidates (ws : List Str) : List Cand :=
  (List.range' 1 (ws.length - 1)).map (candAt ws)

/-- The filter `c.l1.length <= max1 && c.l2.length <= max2`. -/
def isValid (max1 max2 : Int) (c : Cand) : Bool :=
  decide ((c.l1.length : Int) ≤ max1) && decide ((c.l2.length : Int) ≤ max2)

/-- Propositional form of validity of split index `i`: prefix fits the
line-1 cap and suffix fits the line-2 cap. -/
def validAt (ws : List Str) (max1 max2 : Int) (i : Nat) : Prop :=
  ((jsJoin (ws.take i)).length : Int) ≤ max1 ∧ ((jsJoin (ws.drop i)).length : Int) ≤ max2

instance (ws : List Str) (max1 max2 : Int) (i : Nat) : Decidable (validAt ws max1 max2 i) :=
  inferInstanceAs (Decidable (_ ∧ _))

/-- `valid.sort((a, b) => a.diff - b.diff)` is a stable ascending sort, so
`valid[0]` is the first element attaining the minimal `diff`; this
accumulator computes exactly that element. -/
def firstMinAux : Cand → List Cand → Cand
  | best, [] => best
  | best, c :: rest => firstMinAux (if cdiff c < cdiff best then c else best) rest

/-- One iteration of the greedy fallback loop (lines 216–223): append the
word to `line1` when the join still fits `max1`, else append it to `line2`. -/
def greedyStep (max1 : Int) (acc : Str × Str) (w : Str) : Str × Str :=
  if ((if acc.1 = [] then w else acc.1 ++ ' ' :: w).length : Int) ≤ max1 then
    (if acc.1 = [] then w else acc.1 ++ ' ' :: w, acc.2)
  else
    (acc.1, if acc.2 = [] then w else acc.2 ++ ' ' :: w)

/-- The greedy fallback accumulation over all words. -/
def greedyFill (ws : List Str) (max1 : Int) : Str × Str :=
  ws.foldl (greedyStep max1) ([], [])

/-- `splitNameIntoTwoLines(name, maxLine1, maxLine2)` (lines 183–230),
with the local constants of the source written out in place:
`max1/max2 = effectiveCap _`, `words = jsWords name`, the balanced-split
branch selecting `valid[0]` after the stable sort (`firstMinAux`), and the
greedy fallback (`greedyFill`) followed by `truncateToMaxChars`, including
the `line1 || words[0]` recovery when `line1` stayed empty. -/
def splitNameIntoTwoLines (name : Str) (maxLine1 maxLine2 : Option Int) : TextPlan :=
  if name = [] then ⟨[], []⟩
  else if (jsWords name).length = 1 then
    ⟨truncateToMaxChars (jsWords name).headI (effectiveCap maxLine1), []⟩
  else
    match (candidates (jsWords name)).filter
        (isValid (effectiveCap maxLine1) (effectiveCap maxLine2)) with
    | best :: rest =>
      ⟨(firstMinAux best rest).l1, (firstMinAux best rest).l2⟩
    | [] =>
      ⟨truncateToMaxChars
          (if (greedyFill (jsWords name) (effectiveCap maxLine1)).1 = []
           then (jsWords name).headI
           else (greedyFill (jsWords name) (effectiveCap maxLine1)).1)
          (effectiveCap maxLine1),
        truncateToMaxChars (greedyFill (jsWords name) (effectiveCap maxLine1)).2
          (effectiveCap maxLine2)⟩

/-- Modelled from the claim's words for comparison (claim C3): accumulate a
prefix of the word sequence into line 1 while the join stays within the cap,
and stop at the first word that does not fit. -/
def specTakeWhileFits (max1 : Int) : Str → List Str → Str × List Str
  | acc, [] => (acc, [])
  | acc, w :: ws =>
    if ((if acc = [] then w else acc ++ ' ' :: w).length : Int) ≤ max1 then
      specTakeWhileFits max1 (if acc = [] then w else acc ++ ' ' :: w) ws
    else (acc, w :: ws)

/-- Modelled from the claim's words for comparison (claim C3): the fallback
described by the claim — a prefix of the words on line 1, the entire
remaining suffix on line 2, then truncation of both lines. -/
def fallbackSpecPlan (name : Str) (max1 max2 : Int) : TextPlan :=
  ⟨truncateToMaxChars
      (if (specTakeWhileFits max1 [] (jsWords name)).1 = []
       then (jsWords name).headI
       else (specTakeWhileFits max1 [] (jsWords name)).1) max1,
    truncateToMaxChars (jsJoin (specTakeWhileFits max1 [] (jsWords name)).2) max2⟩

/-- Word-list-level description of one greedy fallback iteration, used to
characterise the fallback: the word joins line 1 exactly when the joined
prefix would still fit the cap, and otherwise joins line 2. -/
def greedyPartStep (max1 : Int) (acc : List Str × List Str) (w : Str) : List Str × List Str :=
  if ((jsJoin (acc.1 ++ [w])).length : Int) ≤ max1 then (acc.1 ++ [w], acc.2)
  else (acc.1, acc.2 ++ [w])

/-- Word-list-level greedy partition of the words into the two lines. -/
def greedyPartition (ws : List Str) (max1 : Int) : List Str × List Str :=
  ws.foldl (greedyPartStep max1) ([], [])

/-- `Math.round` for JavaScript numbers modelled in `ℚ`: round half up. -/
def jsRound (q : ℚ) : Int := ⌊q + 1 / 2⌋

/-- `clamp(value, min, max) = Math.max(min, Math.min(max, value))` (line 164). -/
def clamp (v lo hi : ℚ) : ℚ := max lo (min hi v)

/-- `mmToPx(mm, dpi) = (mm / 25.4) * dpi` (line 168); `25.4 = 127/5`. -/
def mmToPx (mm dpi : ℚ) : ℚ := mm / (127 / 5) * dpi

/-- `Number(x) || d` for the dpi argument: absent/`NaN` (`none`) and `0`
are falsy and give the default. -/
def jsOrQ (x : Option ℚ) (d : ℚ) : ℚ :=
  match x with
  | none => d
  | some v => if v = 0 then d else v

/-- `clampedDpi = clamp(Number(dpi) || DEFAULT_DPI, MIN_DPI, MAX_DPI)`
(line 247) with defaults 300, 72, 1200. -/
def clampedDpiOf (dpi : Option ℚ) : ℚ := clamp (jsOrQ dpi 300) 72 1200

/-- `canvasWidthPx = Math.round(mmToPx(mmWidth, clampedDpi))` (line 248);
this is also `contentWidth` (line 256). -/
def contentWidthOf (dpi : Option ℚ) (mmW : ℚ) : Int :=
  jsRound (mmToPx mmW (clampedDpiOf dpi))

/-- `canvasHeightPx = Math.round(mmToPx(mmHeight, clampedDpi))` (line 249);
this is also `contentHeight` (line 257). -/
def contentHeightOf (dpi : Option ℚ) (mmH : ℚ) : Int :=
  jsRound (mmToPx mmH (clampedDpiOf dpi))

/-- `scaleX = contentWidth / VIRTUAL_W` with `VIRTUAL_W = 500` (line 266). -/
def scaleXOf (dpi : Option ℚ) (mmW : ℚ) : ℚ := (contentWidthOf dpi mmW : ℚ) / 500

/-- `scaleY = contentHeight / VIRTUAL_H` with `VIRTUAL_H = 800` (line 267). -/
def scaleYOf (dpi : Option ℚ) (mmH : ℚ) : ℚ := (contentHeightOf dpi mmH : ℚ) / 800

/-- `innerWidth = Math.max(0, contentWidth - sidePaddingPx * 2)` with
`sidePaddingPx = 0` (line 273). -/
def innerWidthOf (dpi : Option ℚ) (mmW : ℚ) : Int :=
  max 0 (contentWidthOf dpi mmW - 0)

/-- `uniformScale = Math.min(scaleX, scaleY)` (line 281). -/
def uniformScaleOf (dpi : Option ℚ) (mmW mmH : ℚ) : ℚ :=
  min (scaleXOf dpi mmW) (scaleYOf dpi mmH)

/-- `qrRenderSize = Math.round((layoutBase.qrSize - 40) * uniformScale)`
with `qrSize = 330` (line 283). -/
def qrRenderSizeOf (dpi : Option ℚ) (mmW mmH : ℚ) : Int :=
  jsRound ((330 - 40) * uniformScaleOf dpi mmW mmH)

/-- `qrRenderClamped = Math.min(qrRenderSize, Math.floor(innerWidth))`
(line 284); `innerWidth` is an integer so its floor is itself. -/
def qrRenderClampedOf (dpi : Option ℚ) (mmW mmH : ℚ) : Int :=
  min (qrRenderSizeOf dpi mmW mmH) (innerWidthOf dpi mmW)

/-- `titleFontSize = Math.round(layoutBase.titleFont * uniformScale)` with
`titleFont = 140` (line 291). -/
def titleFontSizeOf (dpi : Option ℚ) (mmW mmH : ℚ) : Int :=
  jsRound (140 * uniformScaleOf dpi mmW mmH)

/-- `secondFontSize = Math.round(layoutBase.secondFont * uniformScale)` with
`secondFont = 140` (line 292). -/
def secondFontSizeOf (dpi : Option ℚ) (mmW mmH : ℚ) : Int :=
  jsRound (140 * uniformScaleOf dpi mmW mmH)

/-- `hasCategory = typeof category === 'string' && category.trim().length > 0`
(line 294). -/
def hasCategoryB (category : Option Str) : Bool :=
  match category with
  | some c => decide (jsTrim c ≠ [])
  | none => false

/-- `categoryFontSize = hasCategory ? Math.max(6, Math.round(secondFontSize * 0.25)) : 0`
(line 295). -/
def categoryFontSizeOf (category : Option Str) (dpi : Option ℚ) (mmW mmH : ℚ) : Int :=
  if hasCategoryB category then
    max 6 (jsRound ((secondFontSizeOf dpi mmW mmH : ℚ) * (1 / 4)))
  else 0

/-- `categoryGap = hasCategory ? Math.round(18 * uniformScale) : 0` (line 296). -/
def categoryGapOf (category : Option Str) (dpi : Option ℚ) (mmW mmH : ℚ) : Int :=
  if hasCategoryB category then jsRound (18 * uniformScaleOf dpi mmW mmH) else 0

/-- `lineGap = layoutBase.lineGap * scaleY` with `lineGap = 40` (line 275). -/
def lineGapOf (dpi : Option ℚ) (mmH : ℚ) : ℚ := 40 * scaleYOf dpi mmH

/-- `afterTextGap = layoutBase.afterTextGap * scaleY`, floored at the
absolute 40px minimum (lines 276–278), with `afterTextGap = 220`. -/
def afterTextGapOf (dpi : Option ℚ) (mmH : ℚ) : ℚ :=
  max 40 (220 * scaleYOf dpi mmH)

/-- The vertical cursor `y` right before the QR block (lines 302–324):
starts at `topPaddingPx = 30`, advances by the title font size plus the line
gap (plus `30 * scaleY` extra when there is no second line), then by
`afterTextGap`. -/
def yAfterTextOf (plan : TextPlan) (dpi : Option ℚ) (mmW mmH : ℚ) : ℚ :=
  (if plan.line2 ≠ [] then
    30 + (titleFontSizeOf dpi mmW mmH : ℚ) + lineGapOf dpi mmH
  else
    30 + (titleFontSizeOf dpi mmW mmH : ℚ) + (lineGapOf dpi mmH + 30 * scaleYOf dpi mmH))
  + afterTextGapOf dpi mmH

/-- `reserveBelowQr = hasCategory ? (categoryGap + categoryFontSize) : 0`
(line 342). -/
def reserveBelowQrOf (category : Option Str) (dpi : Option ℚ) (mmW mmH : ℚ) : Int :=
  if hasCategoryB category then
    categoryGapOf category dpi mmW mmH + categoryFontSizeOf category dpi mmW mmH
  else 0

/-- `maxQrY = Math.max(topPaddingPx, Math.round(contentHeight - bottomPaddingPx
- qrRenderClamped - reserveBelowQr))` (lines 343–346) with both paddings 30. -/
def maxQrYOf (category : Option Str) (dpi : Option ℚ) (mmW mmH : ℚ) : Int :=
  max 30 (jsRound ((contentHeightOf dpi mmH - 30 - qrRenderClampedOf dpi mmW mmH
    - reserveBelowQrOf category dpi mmW mmH : Int) : ℚ))

/-- `qrY = Math.round(y)` clamped by `if (qrY > maxQrY) qrY = maxQrY`
(lines 340–347). -/
def qrYOf (plan : TextPlan) (category : Option Str) (dpi : Option ℚ) (mmW mmH : ℚ) : Int :=
  if jsRound (yAfterTextOf plan dpi mmW mmH) > maxQrYOf category dpi mmW mmH then
    maxQrYOf category dpi mmW mmH
  else jsRound (yAfterTextOf plan dpi mmW mmH)

/-- `qrX = Math.round(sidePaddingPx + (innerWidth - qrRenderClamped) / 2)`
(line 339) with `sidePaddingPx = 0`. -/
def qrXOf (dpi : Option ℚ) (mmW mmH : ℚ) : Int :=
  jsRound (0 + ((innerWidthOf dpi mmW : ℚ) - (qrRenderClampedOf dpi mmW mmH : ℚ)) / 2)

/-- The arguments of `renderBadgePng` (line 246). -/
structure RenderArgs where
  name : Str
  qrText : Option Str
  category : Option Str
  dpi : Option ℚ
  mmWidth : ℚ
  mmHeight : ℚ
  rotation : Int
  maxCharsLine1 : Option Int
  maxCharsLine2 : Option Int
deriving DecidableEq

/-- The observable outcome of one `renderBadgePng` call: canvas dimensions,
the two text lines, whether and where the QR bitmap and the category text
are drawn, and the final (possibly swapped) output dimensions. -/
structure RenderResult where
  contentWidth : Int
  contentHeight : Int
  line1 : Str
  line2 : Str
  qrDrawn : Bool
  qrX : Int
  qrY : Int
  qrSize : Int
  reserveBelowQr : Int
  categoryDrawn : Bool
  categoryY : Int
  finalWidth : Int
  finalHeight : Int
deriving DecidableEq

/-- `renderBadgePng` (lines 246–397), with drawing abstracted into the
`RenderResult` record: the QR bitmap is drawn iff `qrText` is truthy
(line 327), the category text iff additionally `hasCategory` (line 358),
`rot` normalises the rotation to the allowed set falling back to 0
(lines 252–253), and the final canvas swaps dimensions for 90/270
(lines 370–371). -/
def renderBadgePng (a : RenderArgs) : RenderResult :=
  let plan := splitNameIntoTwoLines a.name a.maxCharsLine1 a.maxCharsLine2
  let rot : Int :=
    if a.rotation = 0 ∨ a.rotation = 90 ∨ a.rotation = 180 ∨ a.rotation = 270 then
      a.rotation
    else 0
  let qrOn : Bool :=
    match a.qrText with
    | some q => decide (q ≠ [])
    | none => false
  { contentWidth := contentWidthOf a.dpi a.mmWidth
    contentHeight := contentHeightOf a.dpi a.mmHeight
    line1 := plan.line1
    line2 := plan.line2
    qrDrawn := qrOn
    qrX := qrXOf a.dpi a.mmWidth a.mmHeight
    qrY := qrYOf plan a.category a.dpi a.mmWidth a.mmHeight
    qrSize := qrRenderClampedOf a.dpi a.mmWidth a.mmHeight
    reserveBelowQr := reserveBelowQrOf a.category a.dpi a.mmWidth a.mmHeight
    categoryDrawn := qrOn && hasCategoryB a.category
    categoryY := qrYOf plan a.category a.dpi a.mmWidth a.mmHeight
      + qrRenderClampedOf a.dpi a.mmWidth a.mmHeight
      + categoryGapOf a.category a.dpi a.mmWidth a.mmHeight
    finalWidth := if rot = 90 ∨ rot = 270 then contentHeightOf a.dpi a.mmHeight
      else contentWidthOf a.dpi a.mmWidth
    finalHeight := if rot = 90 ∨ rot = 270 then contentWidthOf a.dpi a.mmWidth
      else contentHeightOf a.dpi a.mmHeight }

/-- A participant record returned by the Supabase store: `name` is `none`
when the field is absent or not a string, `category` is `none` when null. -/
structure Participant where
  name : Option Str
  category : Option Str
deriving DecidableEq

/-- The handler's response: a 400 validation failure, or a rendered image. -/
inductive BadgeResponse where
  | badRequest
  | image (r : RenderResult)
deriving DecidableEq

/-- Lines 488–509 of `handleBadgeRequest`: the optional participant lookup.
Given the parsed (trimmed) `name` and `qr`, produce
`(resolvedName, resolvedQr, resolvedCategory)`.  A truthy `qr` is looked up
in the store; a found participant with a non-empty string name overrides the
name and supplies the category, and the QR content is forced to the trimmed
identifier; a miss clears the QR. -/
def resolveRequest (store : Str → Option Participant) (name : Str) (qr : Option Str) :
    Str × Option Str × Option Str :=
  match qr with
  | none => (name, none, none)
  | some q =>
    if q = [] then (name, some q, none)
    else
      match store q with
      | none => (name, none, none)
      | some p =>
        ((match p.name with
          | some pn => if jsTrim pn = [] then name else jsTrim pn
          | none => name),
          some (jsTrim q), p.category)

/-- `handleBadgeRequest` (lines 482–540) after `parseParams`: `name` and
`qr` arrive trimmed, `parseParams` fixes `mmWidth = MM_HEIGHT = 80` and
`mmHeight = MM_WIDTH = 50` (landscape content, lines 418–419).  After the
lookup, a still-empty resolved name yields the 400 response (lines 511–513),
otherwise the badge is rendered.  The output encoding (png/base64) does not
affect the rendered image and is not modelled. -/
def handleBadgeRequest (store : Str → Option Participant) (name : Str) (qr : Option Str)
    (dpi : Option ℚ) (rotation : Int) (cap1 cap2 : Option Int) : BadgeResponse :=
  match resolveRequest store name qr with
  | (rn, rq, rc) =>
    if rn = [] then BadgeResponse.badRequest
    else BadgeResponse.image (renderBadgePng ⟨rn, rq, rc, dpi, 80, 50, rotation, cap1, cap2⟩)

lemma dropWhile_dropWhile (p : Char → Bool) (l : Str) :
    (l.dropWhile p).dropWhile p = l.dropWhile p := by
  induction l with
  | nil => rfl
  | cons a l ih =>
    by_cases h : p a = true
    · simp [List.dropWhile_cons, h, ih]
    · simp [List.dropWhile_cons, h]

lemma stripTrailing_idem (s : Str) : stripTrailing (stripTrailing s) = stripTrailing s := by
  unfold stripTrailing
  rw [List.reverse_reverse, dropWhile_dropWhile]

lemma stripTrailing_length_le (s : Str) : (stripTrailing s).length ≤ s.length := by
  unfold stripTrailing
  calc ((s.reverse.dropWhile isJsSpace).reverse).length
      = (s.reverse.dropWhile isJsSpace).length := List.length_reverse _
    _ ≤ s.reverse.length := (List.dropWhile_sublist _).length_le
    _ = s.length := List.length_reverse _

lemma truncate_length_le (text : Str) (maxChars : Int) :
    ((truncateToMaxChars text maxChars).length : Int) ≤ max 0 maxChars + 1 := by
  unfold truncateToMaxChars
  by_cases h0 : max 0 maxChars = 0
  · rw [if_pos h0]
    simp only [List.length_nil, Int.ofNat_eq_coe, Nat.cast_zero]
    omega
  · rw [if_neg h0]
    by_cases ht : text = []
    · rw [if_pos ht]
      simp
      omega
    · rw [if_neg ht]
      by_cases hfit : (text.length : Int) ≤ max 0 maxChars
      · rw [if_pos hfit]
        omega
      · rw [if_neg hfit]
        have h1 : (stripTrailing (text.take (max 0 maxChars).toNat)).length
            ≤ (max 0 maxChars).toNat := by
          calc (stripTrailing (text.take (max 0 maxChars).toNat)).length
              ≤ (text.take (max 0 maxChars).toNat).length := stripTrailing_length_le _
            _ ≤ (max 0 maxChars).toNat := by
                rw [List.length_take]; exact Nat.min_le_left _ _
        have h2 : (0 : Int) ≤ max 0 maxChars := le_max_left 0 maxChars
        have h3 : ((max 0 maxChars).toNat : Int) = max 0 maxChars := Int.toNat_of_nonneg h2
        rw [List.length_append]
        simp only [List.length_cons, List.length_nil]
        omega

/-- C8: `truncateToMaxChars` is idempotent — truncating an already-truncated
string with the same cap returns it unchanged, for every string and every
integer cap (a `NaN` cap behaves like `0` and is covered by the `max 0 _ = 0`
case). -/
theorem c8_truncate_idempotent (text : Str) (maxChars : Int) :
    truncateToMaxChars (truncateToMaxChars text maxChars) maxChars
      = truncateToMaxChars text maxChars := by
  by_cases h0 : max 0 maxChars = 0
  · unfold truncateToMaxChars
    simp [h0]
  · by_cases ht : text = []
    · unfold truncateToMaxChars
      simp [h0, ht]
    · by_cases hfit : (text.length : Int) ≤ max 0 maxChars
      · have hres : truncateToMaxChars text maxChars = text := by
          rw [truncateToMaxChars, if_neg h0, if_neg ht, if_pos hfit]
        rw [hres]
        exact hres
      · -- the cut-and-marker case
        have hres : truncateToMaxChars text maxChars
            = stripTrailing (text.take (max 0 maxChars).toNat) ++ ['.'] := by
          rw [truncateToMaxChars, if_neg h0, if_neg ht, if_neg hfit]
        set st := stripTrailing (text.take (max 0 maxChars).toNat) with hst
        have hne : st ++ ['.'] ≠ [] := by simp
        rw [hres]
        by_cases hfit2 : ((st ++ ['.']).length : Int) ≤ max 0 maxChars
        · rw [truncateToMaxChars, if_neg h0, if_neg hne, if_pos hfit2]
        · rw [truncateToMaxChars, if_neg h0, if_neg hne, if_neg hfit2]
          -- here the stripped cut has full length `max 0 maxChars`
          have h2 : (0 : Int) ≤ max 0 maxChars := le_max_left 0 maxChars
          have hstle : st.length ≤ (max 0 maxChars).toNat := by
            calc st.length ≤ (text.take (max 0 maxChars).toNat).length :=
                stripTrailing_length_le _
              _ ≤ (max 0 maxChars).toNat := by
                  rw [List.length_take]; exact Nat.min_le_left _ _
          have hlen : (st ++ ['.']).length = st.length + 1 := by
            rw [List.length_append]; rfl
          have hsteq : st.length = (max 0 maxChars).toNat := by
            have h3 : ((max 0 maxChars).toNat : Int) = max 0 maxChars :=
              Int.toNat_of_nonneg h2
            rw [hlen] at hfit2
            omega
          have htake : (st ++ ['.']).take (max 0 maxChars).toNat = st := by
            rw [← hsteq]
            exact List.take_left st ['.']
          rw [htake, hst, stripTrailing_idem]

/-- C7 counterexample: a provided finite cap of `0` is NOT coerced to `1`:
`0` is falsy in `Number(maxLine1) || 15`, so the default 15 applies; a
two-character word passed with caps 0 comes back whole instead of being
truncated to one character. -/
theorem c7_counterexample :
    effectiveCap (some 0) = 15 ∧ effectiveCap (some 0) ≠ 1 ∧
      (splitNameIntoTwoLines ('a' :: 'b' :: []) (some 0) (some 0)).line1
        = 'a' :: 'b' :: [] := by
  refine ⟨rfl, by decide, ?_⟩
  decide

/-- C7 (amended): the effective line caps used by `splitNameIntoTwoLines`
equal 15 when the cap is not provided (or `NaN`) or is `0` (both falsy in
`Number(x) || 15`), and otherwise equal `max 1 cap`. -/
theorem c7_amended_cap_normalisation (cap : Option Int) :
    (cap = none → effectiveCap cap = 15) ∧
    (cap = some 0 → effectiveCap cap = 15) ∧
    (∀ v : Int, cap = some v → v ≠ 0 → effectiveCap cap = max 1 v) := by
  refine ⟨?_, ?_, ?_⟩
  · intro h; subst h; rfl
  · intro h; subst h; rfl
  · intro v h hv; subst h
    simp [effectiveCap, jsOrInt, hv]

theorem c7_amended_cap_normalisation_witness :
    effectiveCap (some (-3)) = max 1 (-3) :=
  (c7_amended_cap_normalisation (some (-3))).2.2 (-3) rfl (by decide)

/-- C2 counterexample: the invariant `line1.length <= maxLine1` fails when a
line is cut — the truncation marker is appended after cutting to the cap, so
the name `abcdef` with caps 3 yields `abc.` of length 4. -/
theorem c2_counterexample :
    (splitNameIntoTwoLines ('a' :: 'b' :: 'c' :: 'd' :: 'e' :: 'f' :: [])
        (some 3) (some 3)).line1 = 'a' :: 'b' :: 'c' :: '.' :: [] ∧
    ¬ (((splitNameIntoTwoLines ('a' :: 'b' :: 'c' :: 'd' :: 'e' :: 'f' :: [])
        (some 3) (some 3)).line1.length : Int) ≤ 3) := by
  constructor
  · decide
  · decide

lemma jsWords_of_nil : jsWords ([] : Str) = [[]] := rfl

lemma effectiveCap_pos_eq (v : Int) (h : 1 ≤ v) : effectiveCap (some v) = v := by
  have hv : v ≠ 0 := by omega
  simp [effectiveCap, jsOrInt, hv, max_eq_right h]

lemma name_ne_nil_of_two_words (name : Str) (hw : 2 ≤ (jsWords name).length) :
    name ≠ [] := by
  intro h; subst h
  rw [jsWords_of_nil] at hw
  simp at hw

lemma splitName_eq_balanced (name : Str) (max1 max2 : Int)
    (h1 : 1 ≤ max1) (h2 : 1 ≤ max2) (hw : 2 ≤ (jsWords name).length)
    (best : Cand) (rest : List Cand)
    (hv : (candidates (jsWords name)).filter (isValid max1 max2) = best :: rest) :
    splitNameIntoTwoLines name (some max1) (some max2)
      = ⟨(firstMinAux best rest).l1, (firstMinAux best rest).l2⟩ := by
  have hname : name ≠ [] := name_ne_nil_of_two_words name hw
  have hlen : (jsWords name).length ≠ 1 := by omega
  rw [splitNameIntoTwoLines, if_neg hname, if_neg hlen,
    effectiveCap_pos_eq max1 h1, effectiveCap_pos_eq max2 h2, hv]

lemma splitName_eq_fallback (name : Str) (max1 max2 : Int)
    (h1 : 1 ≤ max1) (h2 : 1 ≤ max2) (hw : 2 ≤ (jsWords name).length)
    (hv : (candidates (jsWords name)).filter (isValid max1 max2) = []) :
    splitNameIntoTwoLines name (some max1) (some max2)
      = ⟨truncateToMaxChars
            (if (greedyFill (jsWords name) max1).1 = []
             then (jsWords name).headI
             else (greedyFill (jsWords name) max1).1) max1,
          truncateToMaxChars (greedyFill (jsWords name) max1).2 max2⟩ := by
  have hname : name ≠ [] := name_ne_nil_of_two_words name hw
  have hlen : (jsWords name).length ≠ 1 := by omega
  rw [splitNameIntoTwoLines, if_neg hname, if_neg hlen,
    effectiveCap_pos_eq max1 h1, effectiveCap_pos_eq max2 h2, hv]

lemma jsJoin_cons_ne (w : Str) (l : List Str) (h : l ≠ []) :
    jsJoin (w :: l) = w ++ ' ' :: jsJoin l := by
  cases l with
  | nil => exact absurd rfl h
  | cons x xs => rfl

lemma jsJoin_append_single (l : List Str) (w : Str) :
    jsJoin (l ++ [w]) = if l = [] then w else jsJoin l ++ ' ' :: w := by
  induction l with
  | nil => rfl
  | cons x xs ih =>
    rw [List.cons_append, jsJoin_cons_ne x (xs ++ [w]) (by simp)]
    by_cases hxs : xs = []
    · subst hxs
      simp [jsJoin]
    · rw [ih, if_neg hxs, if_neg (by simp : ¬(x :: xs = [])),
        jsJoin_cons_ne x xs hxs]
      simp

lemma jsJoin_ne_nil (l : List Str) (h : ∀ w ∈ l, w ≠ []) (hl : l ≠ []) :
    jsJoin l ≠ [] := by
  cases l with
  | nil => exact absurd rfl hl
  | cons w ws =>
    cases ws with
    | nil => exact h w (List.mem_cons_self _ _)
    | cons x xs =>
      rw [jsJoin_cons_ne w (x :: xs) (by simp)]
      simp

lemma jsWords_mem_ne_nil (s : Str) (hw : 2 ≤ (jsWords s).length) :
    ∀ w ∈ jsWords s, w ≠ [] := by
  intro w hmem
  by_cases h : jsTrim s = []
  · rw [jsWords, if_pos h] at hw
    simp at hw
  · rw [jsWords, if_neg h] at hmem
    rw [splitWords] at hmem
    have hfilt := List.of_mem_filter hmem
    exact of_decide_eq_true hfilt

lemma greedy_cond_join (a : List Str) (w : Str) (ha : ∀ x ∈ a, x ≠ []) :
    (if jsJoin a = [] then w else jsJoin a ++ ' ' :: w) = jsJoin (a ++ [w]) := by
  rw [jsJoin_append_single]
  by_cases h : a = []
  · subst h; simp [jsJoin]
  · rw [if_neg h, if_neg (jsJoin_ne_nil a ha h)]

lemma greedy_foldl_eq (max1 : Int) (ws : List Str) :
    ∀ a1 a2 : List Str, (∀ w ∈ ws, w ≠ []) → (∀ w ∈ a1, w ≠ []) → (∀ w ∈ a2, w ≠ []) →
      ws.foldl (greedyStep max1) (jsJoin a1, jsJoin a2)
        = (jsJoin (ws.foldl (greedyPartStep max1) (a1, a2)).1,
           jsJoin (ws.foldl (greedyPartStep max1) (a1, a2)).2) := by
  induction ws with
  | nil => intro a1 a2 _ _ _; rfl
  | cons w ws ih =>
    intro a1 a2 hws ha1 ha2
    have hw : w ≠ [] := hws w (List.mem_cons_self _ _)
    have hws' : ∀ x ∈ ws, x ≠ [] := fun x hx => hws x (List.mem_cons_of_mem _ hx)
    have ha1w : ∀ x ∈ a1 ++ [w], x ≠ [] := by
      intro x hx
      rcases List.mem_append.mp hx with h | h
      · exact ha1 x h
      · rw [List.mem_singleton.mp h]; exact hw
    have ha2w : ∀ x ∈ a2 ++ [w], x ≠ [] := by
      intro x hx
      rcases List.mem_append.mp hx with h | h
      · exact ha2 x h
      · rw [List.mem_singleton.mp h]; exact hw
    rw [List.foldl_cons, List.foldl_cons]
    simp only [greedyStep, greedyPartStep]
    simp only [greedy_cond_join a1 w ha1, greedy_cond_join a2 w ha2]
    by_cases hfit : ((jsJoin (a1 ++ [w])).length : Int) ≤ max1
    · rw [if_pos hfit, if_pos hfit]
      exact ih (a1 ++ [w]) a2 hws' ha1w ha2
    · rw [if_neg hfit, if_neg hfit]
      exact ih a1 (a2 ++ [w]) hws' ha1 ha2w

lemma greedyPart_foldl_split (max1 : Int) (ws : List Str) :
    ∀ a1 a2 : List Str, ∃ s1 s2 : List Str,
      ws.foldl (greedyPartStep max1) (a1, a2) = (a1 ++ s1, a2 ++ s2)
        ∧ s1.Sublist ws ∧ s2.Sublist ws ∧ s1.length + s2.length = ws.length := by
  induction ws with
  | nil =>
    intro a1 a2
    exact ⟨[], [], by simp, List.Sublist.refl _, List.Sublist.refl _, rfl⟩
  | cons w ws ih =>
    intro a1 a2
    rw [List.foldl_cons]
    simp only [greedyPartStep]
    by_cases hfit : ((jsJoin (a1 ++ [w])).length : Int) ≤ max1
    · rw [if_pos hfit]
      obtain ⟨s1, s2, heq, hs1, hs2, hlen⟩ := ih (a1 ++ [w]) a2
      refine ⟨w :: s1, s2, ?_, List.Sublist.cons₂ w hs1, List.Sublist.cons w hs2, ?_⟩
      · rw [heq, List.append_assoc]
        rfl
      · simp [hlen]
        omega
    · rw [if_neg hfit]
      obtain ⟨s1, s2, heq, hs1, hs2, hlen⟩ := ih a1 (a2 ++ [w])
      refine ⟨s1, w :: s2, ?_, List.Sublist.cons w hs1, List.Sublist.cons₂ w hs2, ?_⟩
      · rw [heq, List.append_assoc]
        rfl
      · simp [hlen]
        omega

/-- C3 counterexample: in the greedy fallback a word occurring AFTER the
first overflowing word can still be placed on line 1.  For
`name = "ab cdefgh x"`, caps 4 and 2, no split point satisfies both caps;
the code yields `line1 = "ab x"` (the final word `x` joined line 1 after
`cdefgh` had already overflowed to line 2), which differs from the
prefix/suffix fallback the claim describes (`line1 = "ab"`). -/
theorem c3_counterexample :
    splitNameIntoTwoLines
        ('a' :: 'b' :: ' ' :: 'c' :: 'd' :: 'e' :: 'f' :: 'g' :: 'h' :: ' ' :: 'x' :: [])
        (some 4) (some 2)
      = ⟨'a' :: 'b' :: ' ' :: 'x' :: [], 'c' :: 'd' :: '.' :: []⟩ ∧
    splitNameIntoTwoLines
        ('a' :: 'b' :: ' ' :: 'c' :: 'd' :: 'e' :: 'f' :: 'g' :: 'h' :: ' ' :: 'x' :: [])
        (some 4) (some 2)
      ≠ fallbackSpecPlan
        ('a' :: 'b' :: ' ' :: 'c' :: 'd' :: 'e' :: 'f' :: 'g' :: 'h' :: ' ' :: 'x' :: [])
        4 2 := by
  constructor
  · decide
  · decide

/-- C3 (amended): when no split point satisfies both caps, the fallback
processes the words in order, appending each word to line 1 when the joined
line still fits `maxLine1` and to line 2 otherwise — so a word after the
first overflowing word may still be placed on line 1.  The two lines are the
joins of two complementary subsequences of the word list (every word goes to
exactly one line, in original order), both truncated to their caps, with
line 1 falling back to the first word when it ended up empty. -/
theorem c3_greedy_fallback (name : Str) (max1 max2 : Int)
    (h1 : 1 ≤ max1) (h2 : 1 ≤ max2) (hw : 2 ≤ (jsWords name).length)
    (hnov : (candidates (jsWords name)).filter (isValid max1 max2) = []) :
    splitNameIntoTwoLines name (some max1) (some max2)
      = ⟨truncateToMaxChars
            (if (greedyPartition (jsWords name) max1).1 = []
             then (jsWords name).headI
             else jsJoin (greedyPartition (jsWords name) max1).1) max1,
          truncateToMaxChars (jsJoin (greedyPartition (jsWords name) max1).2) max2⟩
      ∧ (greedyPartition (jsWords name) max1).1.Sublist (jsWords name)
      ∧ (greedyPartition (jsWords name) max1).2.Sublist (jsWords name)
      ∧ (greedyPartition (jsWords name) max1).1.length
          + (greedyPartition (jsWords name) max1).2.length = (jsWords name).length := by
  have hmem : ∀ w ∈ jsWords name, w ≠ [] := jsWords_mem_ne_nil name hw
  have hfold := greedy_foldl_eq max1 (jsWords name) [] [] hmem
    (by intro x hx; simp at hx) (by intro x hx; simp at hx)
  obtain ⟨s1, s2, heq, hs1, hs2, hlen⟩ := greedyPart_foldl_split max1 (jsWords name) [] []
  have hp1 : (greedyPartition (jsWords name) max1).1 = s1 := by
    rw [greedyPartition, heq]
    simp
  have hp2 : (greedyPartition (jsWords name) max1).2 = s2 := by
    rw [greedyPartition, heq]
    simp
  refine ⟨?_, hp1 ▸ hs1, hp2 ▸ hs2, by rw [hp1, hp2]; exact hlen⟩
  rw [splitName_eq_fallback name max1 max2 h1 h2 hw hnov]
  have hfill : greedyFill (jsWords name) max1
      = (jsJoin (greedyPartition (jsWords name) max1).1,
         jsJoin (greedyPartition (jsWords name) max1).2) := by
    rw [greedyFill, greedyPartition]
    exact hfold
  rw [hfill]
  have hnil : ∀ x ∈ (greedyPartition (jsWords name) max1).1, x ≠ [] := by
    intro x hx
    exact hmem x ((hp1 ▸ hs1).subset hx)
  by_cases hempty : (greedyPartition (jsWords name) max1).1 = []
  · rw [hempty]
    simp [jsJoin]
  · rw [if_neg (jsJoin_ne_nil _ hnil hempty), if_neg hempty]

theorem c3_greedy_fallback_witness :
    (candidates (jsWords ('a' :: 'b' :: ' ' :: 'c' :: 'd' :: 'e' :: 'f' :: 'g' :: 'h'
        :: ' ' :: 'x' :: []))).filter (isValid 4 2) = [] ∧
    (splitNameIntoTwoLines
        ('a' :: 'b' :: ' ' :: 'c' :: 'd' :: 'e' :: 'f' :: 'g' :: 'h' :: ' ' :: 'x' :: [])
        (some 4) (some 2)
      = ⟨truncateToMaxChars
            (if (greedyPartition (jsWords ('a' :: 'b' :: ' ' :: 'c' :: 'd' :: 'e' :: 'f'
                  :: 'g' :: 'h' :: ' ' :: 'x' :: [])) 4).1 = []
             then (jsWords ('a' :: 'b' :: ' ' :: 'c' :: 'd' :: 'e' :: 'f' :: 'g' :: 'h'
                  :: ' ' :: 'x' :: [])).headI
             else jsJoin (greedyPartition (jsWords ('a' :: 'b' :: ' ' :: 'c' :: 'd' :: 'e'
                  :: 'f' :: 'g' :: 'h' :: ' ' :: 'x' :: [])) 4).1) 4,
          truncateToMaxChars
            (jsJoin (greedyPartition (jsWords ('a' :: 'b' :: ' ' :: 'c' :: 'd' :: 'e'
                  :: 'f' :: 'g' :: 'h' :: ' ' :: 'x' :: [])) 4).2) 2⟩
      ∧ (greedyPartition (jsWords ('a' :: 'b' :: ' ' :: 'c' :: 'd' :: 'e' :: 'f' :: 'g'
            :: 'h' :: ' ' :: 'x' :: [])) 4).1.Sublist
          (jsWords ('a' :: 'b' :: ' ' :: 'c' :: 'd' :: 'e' :: 'f' :: 'g' :: 'h' :: ' '
            :: 'x' :: []))
      ∧ (greedyPartition (jsWords ('a' :: 'b' :: ' ' :: 'c' :: 'd' :: 'e' :: 'f' :: 'g'
            :: 'h' :: ' ' :: 'x' :: [])) 4).2.Sublist
          (jsWords ('a' :: 'b' :: ' ' :: 'c' :: 'd' :: 'e' :: 'f' :: 'g' :: 'h' :: ' '
            :: 'x' :: []))
      ∧ (greedyPartition (jsWords ('a' :: 'b' :: ' ' :: 'c' :: 'd' :: 'e' :: 'f' :: 'g'
            :: 'h' :: ' ' :: 'x' :: [])) 4).1.length
          + (greedyPartition (jsWords ('a' :: 'b' :: ' ' :: 'c' :: 'd' :: 'e' :: 'f'
            :: 'g' :: 'h' :: ' ' :: 'x' :: [])) 4).2.length
          = (jsWords ('a' :: 'b' :: ' ' :: 'c' :: 'd' :: 'e' :: 'f' :: 'g' :: 'h' :: ' '
            :: 'x' :: [])).length) :=
  ⟨by decide,
    c3_greedy_fallback
      ('a' :: 'b' :: ' ' :: 'c' :: 'd' :: 'e' :: 'f' :: 'g' :: 'h' :: ' ' :: 'x' :: [])
      4 2 (by decide) (by decide) (by decide) (by decide)⟩

lemma firstMinAux_mem (b : Cand) (l : List Cand) :
    firstMinAux b l = b ∨ firstMinAux b l ∈ l := by
  induction l generalizing b with
  | nil => exact Or.inl rfl
  | cons c rest ih =>
    by_cases hc : cdiff c < cdiff b
    · have heq : firstMinAux b (c :: rest) = firstMinAux c rest := by
        simp only [firstMinAux, if_pos hc]
      rcases ih c with h | h
      · right; rw [heq, h]; exact List.mem_cons_self _ _
      · right; rw [heq]; exact List.mem_cons_of_mem _ h
    · have heq : firstMinAux b (c :: rest) = firstMinAux b rest := by
        simp only [firstMinAux, if_neg hc]
      rcases ih b with h | h
      · left; rw [heq, h]
      · right; rw [heq]; exact List.mem_cons_of_mem _ h

lemma firstMinAux_le (b : Cand) (l : List Cand) :
    cdiff (firstMinAux b l) ≤ cdiff b
      ∧ ∀ x ∈ l, cdiff (firstMinAux b l) ≤ cdiff x := by
  induction l generalizing b with
  | nil => exact ⟨le_refl _, by intro x hx; simp at hx⟩
  | cons c rest ih =>
    obtain ⟨h1, h2⟩ := ih (if cdiff c < cdiff b then c else b)
    have hb : cdiff (if cdiff c < cdiff b then c else b) ≤ cdiff b := by
      by_cases hc : cdiff c < cdiff b
      · rw [if_pos hc]; exact le_of_lt hc
      · rw [if_neg hc]
    have hc2 : cdiff (if cdiff c < cdiff b then c else b) ≤ cdiff c := by
      by_cases hc : cdiff c < cdiff b
      · rw [if_pos hc]
      · rw [if_neg hc]; exact le_of_not_lt hc
    constructor
    · calc cdiff (firstMinAux b (c :: rest))
          = cdiff (firstMinAux (if cdiff c < cdiff b then c else b) rest) := by
            simp only [firstMinAux]
        _ ≤ cdiff (if cdiff c < cdiff b then c else b) := h1
        _ ≤ cdiff b := hb
    · intro x hx
      rcases List.mem_cons.mp hx with hxc | hxr
      · subst hxc
        calc cdiff (firstMinAux b (x :: rest))
            = cdiff (firstMinAux (if cdiff x < cdiff b then x else b) rest) := by
              simp only [firstMinAux]
          _ ≤ cdiff (if cdiff x < cdiff b then x else b) := h1
          _ ≤ cdiff x := hc2
      · calc cdiff (firstMinAux b (c :: rest))
            = cdiff (firstMinAux (if cdiff c < cdiff b then c else b) rest) := by
              simp only [firstMinAux]
          _ ≤ cdiff x := h2 x hxr

lemma firstMinAux_first (b : Cand) (l : List Cand)
    (hpw : (b :: l).Pairwise (fun x y => x.idx < y.idx)) :
    ∀ x, (x = b ∨ x ∈ l) → cdiff x = cdiff (firstMinAux b l)
      → (firstMinAux b l).idx ≤ x.idx := by
  induction l generalizing b with
  | nil =>
    intro x hx hdx
    rcases hx with h | h
    · subst h; exact le_refl _
    · simp at h
  | cons c rest ih =>
    intro x hx hdx
    rw [List.pairwise_cons] at hpw
    obtain ⟨hbidx, hcrest⟩ := hpw
    have hrest : rest.Pairwise (fun x y => x.idx < y.idx) :=
      (List.pairwise_cons.mp hcrest).2
    by_cases hc : cdiff c < cdiff b
    · have heq : firstMinAux b (c :: rest) = firstMinAux c rest := by
        simp only [firstMinAux, if_pos hc]
      rw [heq] at hdx ⊢
      rcases hx with h | h
      · -- x = b; impossible on ties: the minimum is at most cdiff c < cdiff b
        subst h
        have hle := (firstMinAux_le c rest).1
        omega
      · rcases List.mem_cons.mp h with h | h
        · exact ih c hcrest x (Or.inl h) hdx
        · exact ih c hcrest x (Or.inr h) hdx
    · have heq : firstMinAux b (c :: rest) = firstMinAux b rest := by
        simp only [firstMinAux, if_neg hc]
      rw [heq] at hdx ⊢
      have hpw' : (b :: rest).Pairwise (fun x y => x.idx < y.idx) :=
        List.pairwise_cons.mpr
          ⟨fun y hy => hbidx y (List.mem_cons_of_mem _ hy), hrest⟩
      rcases hx with h | h
      · exact ih b hpw' x (Or.inl h) hdx
      · rcases List.mem_cons.mp h with h | h
        · -- x = c with cdiff c = minimum; then cdiff b = minimum too and b is earlier
          have hleb := (firstMinAux_le b rest).1
          have hnl : cdiff b ≤ cdiff c := le_of_not_lt hc
          have hdc : cdiff c = cdiff (firstMinAux b rest) := by rw [← h]; exact hdx
          have hbx : cdiff b = cdiff (firstMinAux b rest) := by omega
          have hidx := ih b hpw' b (Or.inl rfl) hbx
          have hbc : b.idx < c.idx := hbidx c (List.mem_cons_self _ _)
          rw [h]
          omega
        · exact ih b hpw' x (Or.inr h) hdx

lemma mem_candidates_iff (ws : List Str) (hw : 2 ≤ ws.length) (c : Cand) :
    c ∈ candidates ws ↔ ∃ i, 1 ≤ i ∧ i < ws.length ∧ c = candAt ws i := by
  rw [candidates, List.mem_map]
  constructor
  · rintro ⟨i, hi, rfl⟩
    rw [List.mem_range'_1] at hi
    exact ⟨i, hi.1, by omega, rfl⟩
  · rintro ⟨i, h1, h2, rfl⟩
    exact ⟨i, List.mem_range'_1.mpr ⟨h1, by omega⟩, rfl⟩

lemma candidates_pairwise_idx (ws : List Str) :
    (candidates ws).Pairwise (fun x y => x.idx < y.idx) := by
  rw [candidates, List.pairwise_map]
  have := List.pairwise_lt_range' 1 (ws.length - 1)
  exact this.imp (fun h => h)

lemma isValid_iff_validAt (ws : List Str) (max1 max2 : Int) (i : Nat) :
    isValid max1 max2 (candAt ws i) = true ↔ validAt ws max1 max2 i := by
  rw [isValid, validAt, candAt]
  rw [Bool.and_eq_true, decide_eq_true_iff, decide_eq_true_iff]

lemma splitName_balanced_spec (name : Str) (max1 max2 : Int)
    (h1 : 1 ≤ max1) (h2 : 1 ≤ max2) (hw : 2 ≤ (jsWords name).length)
    (hex : ∃ i, 1 ≤ i ∧ i < (jsWords name).length ∧ validAt (jsWords name) max1 max2 i) :
    ∃ i, 1 ≤ i ∧ i < (jsWords name).length ∧ validAt (jsWords name) max1 max2 i
      ∧ splitNameIntoTwoLines name (some max1) (some max2)
          = ⟨jsJoin ((jsWords name).take i), jsJoin ((jsWords name).drop i)⟩
      ∧ ∀ j, 1 ≤ j → j < (jsWords name).length → validAt (jsWords name) max1 max2 j →
          cdiff (candAt (jsWords name) i) ≤ cdiff (candAt (jsWords name) j)
          ∧ (cdiff (candAt (jsWords name) j) = cdiff (candAt (jsWords name) i) → i ≤ j) := by
  obtain ⟨i0, hi01, hi0len, hi0v⟩ := hex
  have hmemc : candAt (jsWords name) i0 ∈ candidates (jsWords name) :=
    (mem_candidates_iff (jsWords name) hw _).mpr ⟨i0, hi01, hi0len, rfl⟩
  have hmemf : candAt (jsWords name) i0
      ∈ (candidates (jsWords name)).filter (isValid max1 max2) :=
    List.mem_filter.mpr ⟨hmemc, (isValid_iff_validAt (jsWords name) max1 max2 i0).mpr hi0v⟩
  cases hfl : (candidates (jsWords name)).filter (isValid max1 max2) with
  | nil =>
    rw [hfl] at hmemf
    simp at hmemf
  | cons best rest =>
    have hsplit := splitName_eq_balanced name max1 max2 h1 h2 hw best rest hfl
    have hrmem : firstMinAux best rest ∈ best :: rest := by
      rcases firstMinAux_mem best rest with h | h
      · rw [h]; exact List.mem_cons_self _ _
      · exact List.mem_cons_of_mem _ h
    have hrfil : firstMinAux best rest
        ∈ (candidates (jsWords name)).filter (isValid max1 max2) := by
      rw [hfl]; exact hrmem
    have hrcand : firstMinAux best rest ∈ candidates (jsWords name) :=
      List.mem_of_mem_filter hrfil
    have hrvalid : isValid max1 max2 (firstMinAux best rest) = true :=
      List.of_mem_filter hrfil
    obtain ⟨i, hi1, hilen, hieq⟩ := (mem_candidates_iff (jsWords name) hw _).mp hrcand
    have hminle : ∀ x ∈ best :: rest, cdiff (firstMinAux best rest) ≤ cdiff x := by
      intro x hx
      rcases List.mem_cons.mp hx with h | h
      · rw [h]; exact (firstMinAux_le best rest).1
      · exact (firstMinAux_le best rest).2 x h
    have hpwf : ((candidates (jsWords name)).filter (isValid max1 max2)).Pairwise
        (fun x y => x.idx < y.idx) :=
      List.Pairwise.sublist (List.filter_sublist _) (candidates_pairwise_idx (jsWords name))
    rw [hfl] at hpwf
    refine ⟨i, hi1, hilen, ?_, ?_, ?_⟩
    · exact (isValid_iff_validAt (jsWords name) max1 max2 i).mp (by rw [← hieq]; exact hrvalid)
    · rw [hsplit, hieq]
      rfl
    · intro j hj1 hjlen hjv
      have hjmem : candAt (jsWords name) j
          ∈ (candidates (jsWords name)).filter (isValid max1 max2) :=
        List.mem_filter.mpr ⟨(mem_candidates_iff (jsWords name) hw _).mpr ⟨j, hj1, hjlen, rfl⟩,
          (isValid_iff_validAt (jsWords name) max1 max2 j).mpr hjv⟩
      rw [hfl] at hjmem
      constructor
      · rw [← hieq]
        exact hminle _ hjmem
      · intro htie
        have hfirst := firstMinAux_first best rest hpwf (candAt (jsWords name) j)
          (List.mem_cons.mp hjmem) (by rw [htie, hieq])
        rw [hieq] at hfirst
        exact hfirst

/-- C1: for a name of at least two words and caps at least 1 (caps this
small-or-larger pass unchanged through the normalisation), whenever at least
one split point yields a prefix within `maxLine1` and a suffix within
`maxLine2`, the planner returns exactly the valid candidate minimising
`|len(prefix) - len(suffix)|`, breaking ties by the earliest split index
(stable sort on diff, enumeration order preserved). -/
theorem c1_balanced_best_split (name : Str) (max1 max2 : Int)
    (h1 : 1 ≤ max1) (h2 : 1 ≤ max2) (hw : 2 ≤ (jsWords name).length)
    (hex : ∃ i, 1 ≤ i ∧ i < (jsWords name).length ∧ validAt (jsWords name) max1 max2 i) :
    ∃ i, 1 ≤ i ∧ i < (jsWords name).length ∧ validAt (jsWords name) max1 max2 i
      ∧ splitNameIntoTwoLines name (some max1) (some max2)
          = ⟨jsJoin ((jsWords name).take i), jsJoin ((jsWords name).drop i)⟩
      ∧ ∀ j, 1 ≤ j → j < (jsWords name).length → validAt (jsWords name) max1 max2 j →
          cdiff (candAt (jsWords name) i) ≤ cdiff (candAt (jsWords name) j)
          ∧ (cdiff (candAt (jsWords name) j) = cdiff (candAt (jsWords name) i) → i ≤ j) :=
  splitName_balanced_spec name max1 max2 h1 h2 hw hex

theorem c1_balanced_best_split_witness :
    (2 ≤ (jsWords ('A' :: 'l' :: 'e' :: 'x' :: 'a' :: 'n' :: 'd' :: 'e' :: 'r' :: ' '
        :: 'S' :: 'm' :: 'i' :: 't' :: 'h' :: [])).length)
    ∧ (∃ i, 1 ≤ i
        ∧ i < (jsWords ('A' :: 'l' :: 'e' :: 'x' :: 'a' :: 'n' :: 'd' :: 'e' :: 'r' :: ' '
            :: 'S' :: 'm' :: 'i' :: 't' :: 'h' :: [])).length
        ∧ validAt (jsWords ('A' :: 'l' :: 'e' :: 'x' :: 'a' :: 'n' :: 'd' :: 'e' :: 'r'
            :: ' ' :: 'S' :: 'm' :: 'i' :: 't' :: 'h' :: [])) 10 10 i
        ∧ splitNameIntoTwoLines ('A' :: 'l' :: 'e' :: 'x' :: 'a' :: 'n' :: 'd' :: 'e'
            :: 'r' :: ' ' :: 'S' :: 'm' :: 'i' :: 't' :: 'h' :: []) (some 10) (some 10)
          = ⟨jsJoin ((jsWords ('A' :: 'l' :: 'e' :: 'x' :: 'a' :: 'n' :: 'd' :: 'e' :: 'r'
              :: ' ' :: 'S' :: 'm' :: 'i' :: 't' :: 'h' :: [])).take i),
             jsJoin ((jsWords ('A' :: 'l' :: 'e' :: 'x' :: 'a' :: 'n' :: 'd' :: 'e' :: 'r'
              :: ' ' :: 'S' :: 'm' :: 'i' :: 't' :: 'h' :: [])).drop i)⟩
        ∧ ∀ j, 1 ≤ j
            → j < (jsWords ('A' :: 'l' :: 'e' :: 'x' :: 'a' :: 'n' :: 'd' :: 'e' :: 'r'
                :: ' ' :: 'S' :: 'm' :: 'i' :: 't' :: 'h' :: [])).length
            → validAt (jsWords ('A' :: 'l' :: 'e' :: 'x' :: 'a' :: 'n' :: 'd' :: 'e' :: 'r'
                :: ' ' :: 'S' :: 'm' :: 'i' :: 't' :: 'h' :: [])) 10 10 j
            → cdiff (candAt (jsWords ('A' :: 'l' :: 'e' :: 'x' :: 'a' :: 'n' :: 'd' :: 'e'
                  :: 'r' :: ' ' :: 'S' :: 'm' :: 'i' :: 't' :: 'h' :: [])) i)
                ≤ cdiff (candAt (jsWords ('A' :: 'l' :: 'e' :: 'x' :: 'a' :: 'n' :: 'd'
                  :: 'e' :: 'r' :: ' ' :: 'S' :: 'm' :: 'i' :: 't' :: 'h' :: [])) j)
              ∧ (cdiff (candAt (jsWords ('A' :: 'l' :: 'e' :: 'x' :: 'a' :: 'n' :: 'd'
                    :: 'e' :: 'r' :: ' ' :: 'S' :: 'm' :: 'i' :: 't' :: 'h' :: [])) j)
                  = cdiff (candAt (jsWords ('A' :: 'l' :: 'e' :: 'x' :: 'a' :: 'n' :: 'd'
                    :: 'e' :: 'r' :: ' ' :: 'S' :: 'm' :: 'i' :: 't' :: 'h' :: [])) i)
                  → i ≤ j)) :=
  ⟨by decide,
    c1_balanced_best_split
      ('A' :: 'l' :: 'e' :: 'x' :: 'a' :: 'n' :: 'd' :: 'e' :: 'r' :: ' '
        :: 'S' :: 'm' :: 'i' :: 't' :: 'h' :: []) 10 10
      (by decide) (by decide) (by decide)
      ⟨1, by decide, by decide, by decide⟩⟩

lemma jsJoin_take_drop (ws : List Str) (i : Nat) (h0 : 0 < i) (hlen : i < ws.length) :
    jsJoin (ws.take i) ++ ' ' :: jsJoin (ws.drop i) = jsJoin ws := by
  induction ws generalizing i with
  | nil => simp at hlen
  | cons w ws ih =>
    have hws0 : ws ≠ [] := by
      intro hc
      subst hc
      simp at hlen
      omega
    cases i with
    | zero => omega
    | succ i =>
      cases i with
      | zero =>
        simp only [List.take_succ_cons, List.take_zero, List.drop_succ_cons, List.drop_zero]
        rw [jsJoin_cons_ne w ws hws0]
        rfl
      | succ k =>
        have hlt : k + 1 < ws.length := by
          simp only [List.length_cons] at hlen
          omega
        have hwsne : ws.take (k + 1) ≠ [] := by
          intro hc
          have hcl := congrArg List.length hc
          rw [List.length_take] at hcl
          simp only [List.length_nil] at hcl
          omega
        simp only [List.take_succ_cons, List.drop_succ_cons]
        rw [jsJoin_cons_ne w (ws.take (k + 1)) hwsne, jsJoin_cons_ne w ws hws0,
          List.append_assoc, List.cons_append, ih (k + 1) (by omega) hlt]

/-- C10: on the balanced-split path (at least two words, some split point
satisfies both caps), the plan loses no characters: `line1 ++ " " ++ line2`
equals the whitespace-collapsed trimmed name, i.e. the single-space join of
the word list — in particular no truncation marker is introduced. -/
theorem c10_balanced_lossless (name : Str) (max1 max2 : Int)
    (h1 : 1 ≤ max1) (h2 : 1 ≤ max2) (hw : 2 ≤ (jsWords name).length)
    (hex : ∃ i, 1 ≤ i ∧ i < (jsWords name).length ∧ validAt (jsWords name) max1 max2 i) :
    (splitNameIntoTwoLines name (some max1) (some max2)).line1 ++ ' '
      :: (splitNameIntoTwoLines name (some max1) (some max2)).line2
      = jsJoin (jsWords name) := by
  obtain ⟨i, hi1, hilen, _, heq, _⟩ := splitName_balanced_spec name max1 max2 h1 h2 hw hex
  rw [heq]
  exact jsJoin_take_drop (jsWords name) i (by omega) hilen

theorem c10_balanced_lossless_witness :
    (2 ≤ (jsWords ('A' :: 'l' :: 'e' :: 'x' :: 'a' :: 'n' :: 'd' :: 'e' :: 'r' :: ' '
        :: 'S' :: 'm' :: 'i' :: 't' :: 'h' :: [])).length)
    ∧ ((splitNameIntoTwoLines ('A' :: 'l' :: 'e' :: 'x' :: 'a' :: 'n' :: 'd' :: 'e' :: 'r'
          :: ' ' :: 'S' :: 'm' :: 'i' :: 't' :: 'h' :: []) (some 10) (some 10)).line1 ++ ' '
        :: (splitNameIntoTwoLines ('A' :: 'l' :: 'e' :: 'x' :: 'a' :: 'n' :: 'd' :: 'e'
          :: 'r' :: ' ' :: 'S' :: 'm' :: 'i' :: 't' :: 'h' :: []) (some 10) (some 10)).line2
        = jsJoin (jsWords ('A' :: 'l' :: 'e' :: 'x' :: 'a' :: 'n' :: 'd' :: 'e' :: 'r'
          :: ' ' :: 'S' :: 'm' :: 'i' :: 't' :: 'h' :: []))) :=
  ⟨by decide,
    c10_balanced_lossless
      ('A' :: 'l' :: 'e' :: 'x' :: 'a' :: 'n' :: 'd' :: 'e' :: 'r' :: ' '
        :: 'S' :: 'm' :: 'i' :: 't' :: 'h' :: []) 10 10
      (by decide) (by decide) (by decide)
      ⟨1, by decide, by decide, by decide⟩⟩

/-- C2 (amended): the planner's lines respect the caps only up to the
truncation marker — for caps at least 1 (which pass unchanged through the
normalisation), `line1.length <= maxLine1 + 1` and
`line2.length <= maxLine2 + 1`; when a line was cut, the appended marker can
make the line exceed its cap by exactly one character. -/
theorem c2_line_caps (name : Str) (max1 max2 : Int) (h1 : 1 ≤ max1) (h2 : 1 ≤ max2) :
    ((splitNameIntoTwoLines name (some max1) (some max2)).line1.length : Int) ≤ max1 + 1
    ∧ ((splitNameIntoTwoLines name (some max1) (some max2)).line2.length : Int)
        ≤ max2 + 1 := by
  have htr1 : ∀ t : Str, ((truncateToMaxChars t max1).length : Int) ≤ max1 + 1 := by
    intro t
    have := truncate_length_le t max1
    omega
  have htr2 : ∀ t : Str, ((truncateToMaxChars t max2).length : Int) ≤ max2 + 1 := by
    intro t
    have := truncate_length_le t max2
    omega
  by_cases hname : name = []
  · rw [splitNameIntoTwoLines, if_pos hname]
    constructor
    · show ((([] : Str).length : Int)) ≤ max1 + 1
      simp
      omega
    · show ((([] : Str).length : Int)) ≤ max2 + 1
      simp
      omega
  · by_cases hlen1 : (jsWords name).length = 1
    · rw [splitNameIntoTwoLines, if_neg hname, if_pos hlen1,
        effectiveCap_pos_eq max1 h1]
      refine ⟨htr1 _, ?_⟩
      show ((([] : Str).length : Int)) ≤ max2 + 1
      simp
      omega
    · rw [splitNameIntoTwoLines, if_neg hname, if_neg hlen1,
        effectiveCap_pos_eq max1 h1, effectiveCap_pos_eq max2 h2]
      split
      next best rest heq =>
        have hrmem : firstMinAux best rest ∈ best :: rest := by
          rcases firstMinAux_mem best rest with h | h
          · rw [h]; exact List.mem_cons_self _ _
          · exact List.mem_cons_of_mem _ h
        have hrval : isValid max1 max2 (firstMinAux best rest) = true := by
          have hmem : firstMinAux best rest
              ∈ (candidates (jsWords name)).filter (isValid max1 max2) := by
            rw [heq]; exact hrmem
          exact List.of_mem_filter hmem
        rw [isValid, Bool.and_eq_true, decide_eq_true_iff, decide_eq_true_iff] at hrval
        constructor
        · show (((firstMinAux best rest).l1.length : Int)) ≤ max1 + 1
          omega
        · show (((firstMinAux best rest).l2.length : Int)) ≤ max2 + 1
          omega
      next heq =>
        exact ⟨htr1 _, htr2 _⟩

theorem c2_line_caps_witness :
    ((1 : Int) ≤ 3)
    ∧ ((splitNameIntoTwoLines ('a' :: 'b' :: 'c' :: 'd' :: 'e' :: 'f' :: [])
        (some 3) (some 3)).line1.length : Int) ≤ 3 + 1
    ∧ ((splitNameIntoTwoLines ('a' :: 'b' :: 'c' :: 'd' :: 'e' :: 'f' :: [])
        (some 3) (some 3)).line2.length : Int) ≤ 3 + 1 :=
  ⟨by decide,
    (c2_line_caps ('a' :: 'b' :: 'c' :: 'd' :: 'e' :: 'f' :: []) 3 3
      (by decide) (by decide)).1,
    (c2_line_caps ('a' :: 'b' :: 'c' :: 'd' :: 'e' :: 'f' :: []) 3 3
      (by decide) (by decide)).2⟩

/-- C6: the final output canvas swaps the content dimensions for rotation
90 or 270, keeps them for 0 or 180, and any rotation outside the allowed set
(e.g. 45) silently falls back to the 0-degree dimensions — the rotation
normalisation is total, no error path exists. -/
theorem c6_rotation_dims (a : RenderArgs) :
    ((a.rotation = 90 ∨ a.rotation = 270) →
        (renderBadgePng a).finalWidth = (renderBadgePng a).contentHeight
        ∧ (renderBadgePng a).finalHeight = (renderBadgePng a).contentWidth)
    ∧ ((a.rotation = 0 ∨ a.rotation = 180) →
        (renderBadgePng a).finalWidth = (renderBadgePng a).contentWidth
        ∧ (renderBadgePng a).finalHeight = (renderBadgePng a).contentHeight)
    ∧ (¬(a.rotation = 0 ∨ a.rotation = 90 ∨ a.rotation = 180 ∨ a.rotation = 270) →
        (renderBadgePng a).finalWidth = (renderBadgePng a).contentWidth
        ∧ (renderBadgePng a).finalHeight = (renderBadgePng a).contentHeight) := by
  refine ⟨?_, ?_, ?_⟩
  · intro h
    rcases h with h | h <;> simp [renderBadgePng, h]
  · intro h
    rcases h with h | h <;> simp [renderBadgePng, h]
  · intro h
    simp only [renderBadgePng, if_neg h]
    constructor
    · simp
    · simp

theorem c6_rotation_dims_witness :
    (renderBadgePng ⟨'a' :: [], none, none, none, 80, 50, 45, none, none⟩).finalWidth
      = (renderBadgePng ⟨'a' :: [], none, none, none, 80, 50, 45, none, none⟩).contentWidth
    ∧ (renderBadgePng ⟨'a' :: [], none, none, none, 80, 50, 45, none, none⟩).finalHeight
      = (renderBadgePng ⟨'a' :: [], none, none, none, 80, 50, 45, none, none⟩).contentHeight :=
  (c6_rotation_dims ⟨'a' :: [], none, none, none, 80, 50, 45, none, none⟩).2.2 (by decide)

/-- C9: when the participant store does not resolve the (non-empty) qr
identifier, the request still succeeds (given a non-empty name): the QR is
cleared before rendering, so the image contains the two name lines only —
no QR bitmap and no category text are drawn. -/
theorem c9_lookup_miss_renders_name_only (store : Str → Option Participant)
    (name q : Str) (dpi : Option ℚ) (rotation : Int) (cap1 cap2 : Option Int)
    (hname : name ≠ []) (hq : q ≠ []) (hmiss : store q = none) :
    handleBadgeRequest store name (some q) dpi rotation cap1 cap2
      = BadgeResponse.image
          (renderBadgePng ⟨name, none, none, dpi, 80, 50, rotation, cap1, cap2⟩)
    ∧ (renderBadgePng ⟨name, none, none, dpi, 80, 50, rotation, cap1, cap2⟩).qrDrawn = false
    ∧ (renderBadgePng ⟨name, none, none, dpi, 80, 50, rotation, cap1, cap2⟩).categoryDrawn
        = false
    ∧ (renderBadgePng ⟨name, none, none, dpi, 80, 50, rotation, cap1, cap2⟩).line1
        = (splitNameIntoTwoLines name cap1 cap2).line1
    ∧ (renderBadgePng ⟨name, none, none, dpi, 80, 50, rotation, cap1, cap2⟩).line2
        = (splitNameIntoTwoLines name cap1 cap2).line2 := by
  refine ⟨?_, rfl, rfl, rfl, rfl⟩
  simp only [handleBadgeRequest, resolveRequest, hmiss, if_neg hq, if_neg hname]

theorem c9_lookup_miss_witness :
    (('M' :: 'a' :: 'r' :: 'i' :: 'a' :: [] : Str) ≠ [])
    ∧ handleBadgeRequest (fun _ => none) ('M' :: 'a' :: 'r' :: 'i' :: 'a' :: [])
        (some ('a' :: 'b' :: 'c' :: [])) (some 300) 0 none none
      = BadgeResponse.image
          (renderBadgePng ⟨'M' :: 'a' :: 'r' :: 'i' :: 'a' :: [], none, none,
            some 300, 80, 50, 0, none, none⟩) :=
  ⟨by decide,
    (c9_lookup_miss_renders_name_only (fun _ => none)
      ('M' :: 'a' :: 'r' :: 'i' :: 'a' :: []) ('a' :: 'b' :: 'c' :: [])
      (some 300) 0 none none (by decide) (by decide) rfl).1⟩

/-- The participant store used in the C4 counterexample: it resolves the
identifier `u1` to a participant named `Alice` with no category. -/
def storeAlice : Str → Option Participant :=
  fun q =>
    if q = 'u' :: '1' :: [] then
      some ⟨some ('A' :: 'l' :: 'i' :: 'c' :: 'e' :: []), none⟩
    else none

/-- C4 counterexample: with an empty name parameter but a qr identifier the
participant store resolves to a participant with a non-empty name, the
handler does NOT return the validation failure: the participant's name is
adopted (line 497) before the emptiness check (line 511) and an image is
rendered, so the claim's quantification over every store behaviour fails. -/
theorem c4_counterexample :
    handleBadgeRequest storeAlice [] (some ('u' :: '1' :: [])) none 0 none none
      ≠ BadgeResponse.badRequest := by
  decide

/-- C4 (amended): for a request whose name parameter is empty or missing,
the handler returns the validation failure (before any rendering) provided
the qr lookup does not supply a participant with a non-empty name — i.e. the
qr is absent, empty, unresolved, or resolves to a participant whose name
field is absent or whitespace-only.  With a resolving participant the name
is adopted instead (see the counterexample). -/
theorem c4_empty_name_validation (store : Str → Option Participant) (qr : Option Str)
    (dpi : Option ℚ) (rotation : Int) (cap1 cap2 : Option Int)
    (h : ∀ q p s, qr = some q → store q = some p → p.name = some s → jsTrim s = []) :
    handleBadgeRequest store [] qr dpi rotation cap1 cap2 = BadgeResponse.badRequest := by
  cases qr with
  | none => rfl
  | some q =>
    by_cases hq : q = []
    · subst hq
      rfl
    · cases hp : store q with
      | none => simp [handleBadgeRequest, resolveRequest, hq, hp]
      | some p =>
        cases hpn : p.name with
        | none => simp [handleBadgeRequest, resolveRequest, hq, hp, hpn]
        | some s =>
          have hs : jsTrim s = [] := h q p s rfl hp hpn
          simp [handleBadgeRequest, resolveRequest, hq, hp, hpn, hs]

theorem c4_empty_name_validation_witness :
    handleBadgeRequest (fun _ => none) [] (some ('u' :: '1' :: [])) none 0 none none
      = BadgeResponse.badRequest :=
  c4_empty_name_validation (fun _ => none) (some ('u' :: '1' :: [])) none 0 none none
    (fun _ _ _ _ hp _ => Option.noConfusion hp)

lemma jsRound_le (q : ℚ) : (jsRound q : ℚ) ≤ q + 1 / 2 := Int.floor_le _

lemma lt_jsRound (q : ℚ) : q - 1 / 2 < (jsRound q : ℚ) := by
  have h := Int.sub_one_lt_floor (q + 1 / 2)
  rw [jsRound]
  linarith

lemma jsRound_intCast (n : Int) : jsRound ((n : ℚ)) = n := by
  rw [jsRound, Int.floor_int_add]
  norm_num

lemma clampedDpi_ge (dpi : Option ℚ) : (72 : ℚ) ≤ clampedDpiOf dpi := by
  rw [clampedDpiOf, clamp]
  exact le_max_left _ _

lemma contentHeight_lb (dpi : Option ℚ) : (142 : Int) ≤ contentHeightOf dpi 50 := by
  have hd : (72 : ℚ) ≤ clampedDpiOf dpi := clampedDpi_ge dpi
  have hv : (18000 / 127 : ℚ) ≤ mmToPx 50 (clampedDpiOf dpi) := by
    rw [mmToPx, show (50 : ℚ) / (127 / 5) = 250 / 127 by norm_num]
    linarith
  have hr : (18000 / 127 : ℚ) - 1 / 2 < (contentHeightOf dpi 50 : ℚ) := by
    rw [contentHeightOf]
    have := lt_jsRound (mmToPx 50 (clampedDpiOf dpi))
    linarith
  have h141 : (141 : ℚ) < (contentHeightOf dpi 50 : ℚ) := by
    have : (141 : ℚ) ≤ 18000 / 127 - 1 / 2 := by norm_num
    linarith
  have : (141 : Int) < contentHeightOf dpi 50 := by exact_mod_cast h141
  omega

lemma uniform_le_scaleY (dpi : Option ℚ) (mmW mmH : ℚ) :
    uniformScaleOf dpi mmW mmH ≤ (contentHeightOf dpi mmH : ℚ) / 800 := by
  rw [uniformScaleOf, scaleYOf]
  exact min_le_right _ _

lemma qrClamped_le (dpi : Option ℚ) :
    (qrRenderClampedOf dpi 80 50 : ℚ)
      ≤ 29 * (contentHeightOf dpi 50 : ℚ) / 80 + 1 / 2 := by
  have h1 : qrRenderClampedOf dpi 80 50 ≤ qrRenderSizeOf dpi 80 50 := min_le_left _ _
  have h1q : (qrRenderClampedOf dpi 80 50 : ℚ) ≤ (qrRenderSizeOf dpi 80 50 : ℚ) := by
    exact_mod_cast h1
  have h2 : (qrRenderSizeOf dpi 80 50 : ℚ)
      ≤ (330 - 40) * uniformScaleOf dpi 80 50 + 1 / 2 := by
    rw [qrRenderSizeOf]
    exact jsRound_le _
  have h3 := uniform_le_scaleY dpi 80 50
  linarith

lemma reserve_le (category : Option Str) (dpi : Option ℚ)
    (hH : (142 : Int) ≤ contentHeightOf dpi 50) :
    (reserveBelowQrOf category dpi 80 50 : ℚ)
      ≤ 7 * (contentHeightOf dpi 50 : ℚ) / 160
        + 9 * (contentHeightOf dpi 50 : ℚ) / 400 + 9 / 8 := by
  have hHq : (142 : ℚ) ≤ (contentHeightOf dpi 50 : ℚ) := by exact_mod_cast hH
  rw [reserveBelowQrOf]
  by_cases hc : hasCategoryB category = true
  · rw [if_pos hc, categoryGapOf, categoryFontSizeOf, if_pos hc, if_pos hc]
    have hu := uniform_le_scaleY dpi 80 50
    have hgap : (jsRound (18 * uniformScaleOf dpi 80 50) : ℚ)
        ≤ 18 * ((contentHeightOf dpi 50 : ℚ) / 800) + 1 / 2 := by
      have := jsRound_le (18 * uniformScaleOf dpi 80 50)
      linarith
    have hsfs : (secondFontSizeOf dpi 80 50 : ℚ)
        ≤ 140 * ((contentHeightOf dpi 50 : ℚ) / 800) + 1 / 2 := by
      rw [secondFontSizeOf]
      have := jsRound_le (140 * uniformScaleOf dpi 80 50)
      linarith
    have hfs : (jsRound ((secondFontSizeOf dpi 80 50 : ℚ) * (1 / 4)) : ℚ)
        ≤ 7 * (contentHeightOf dpi 50 : ℚ) / 160 + 5 / 8 := by
      have := jsRound_le ((secondFontSizeOf dpi 80 50 : ℚ) * (1 / 4))
      linarith
    have h6 : (6 : ℚ) ≤ 7 * (contentHeightOf dpi 50 : ℚ) / 160 + 5 / 8 := by linarith
    have hmax : ((max 6 (jsRound ((secondFontSizeOf dpi 80 50 : ℚ) * (1 / 4))) : Int) : ℚ)
        ≤ 7 * (contentHeightOf dpi 50 : ℚ) / 160 + 5 / 8 := by
      rw [Int.cast_max]
      exact max_le (by norm_num [h6]) hfs
    rw [Int.cast_add]
    linarith
  · rw [if_neg hc]
    simp only [Int.cast_zero]
    linarith

lemma maxQrY_eq (category : Option Str) (dpi : Option ℚ) :
    maxQrYOf category dpi 80 50
      = contentHeightOf dpi 50 - 30 - qrRenderClampedOf dpi 80 50
        - reserveBelowQrOf category dpi 80 50 := by
  have hH := contentHeight_lb dpi
  have hqr := qrClamped_le dpi
  have hres := reserve_le category dpi hH
  have hHq : (142 : ℚ) ≤ (contentHeightOf dpi 50 : ℚ) := by exact_mod_cast hH
  have key : (30 : Int) ≤ contentHeightOf dpi 50 - 30 - qrRenderClampedOf dpi 80 50
      - reserveBelowQrOf category dpi 80 50 := by
    have hkey : (30 : ℚ) ≤ (contentHeightOf dpi 50 : ℚ) - 30
        - (qrRenderClampedOf dpi 80 50 : ℚ)
        - (reserveBelowQrOf category dpi 80 50 : ℚ) := by linarith
    exact_mod_cast hkey
  rw [maxQrYOf, jsRound_intCast]
  exact max_eq_right key

/-- C5: for every render call made by the handler (landscape 80mm x 50mm
content, any dpi, name, caps and category) with a non-empty QR payload, the
drawn QR square plus the space reserved below it for the category line stays
within the content canvas: `qrY + qrSize + reserve <= contentHeightPx -
bottomPadding` with `bottomPadding = 30`. -/
theorem c5_qr_within_canvas (name q : Str) (category : Option Str) (dpi : Option ℚ)
    (rotation : Int) (cap1 cap2 : Option Int) (_hq : q ≠ []) :
    (renderBadgePng ⟨name, some q, category, dpi, 80, 50, rotation, cap1, cap2⟩).qrY
      + (renderBadgePng ⟨name, some q, category, dpi, 80, 50, rotation, cap1, cap2⟩).qrSize
      + (renderBadgePng ⟨name, some q, category, dpi, 80, 50, rotation,
          cap1, cap2⟩).reserveBelowQr
      ≤ (renderBadgePng ⟨name, some q, category, dpi, 80, 50, rotation,
          cap1, cap2⟩).contentHeight - 30 := by
  have hmax := maxQrY_eq category dpi
  show qrYOf (splitNameIntoTwoLines name cap1 cap2) category dpi 80 50
      + qrRenderClampedOf dpi 80 50 + reserveBelowQrOf category dpi 80 50
      ≤ contentHeightOf dpi 50 - 30
  have hy : qrYOf (splitNameIntoTwoLines name cap1 cap2) category dpi 80 50
      ≤ maxQrYOf category dpi 80 50 := by
    rw [qrYOf]
    split
    · exact le_refl _
    next hlt => omega
  omega

theorem c5_qr_within_canvas_witness :
    (('a' :: 'b' :: 'c' :: [] : Str) ≠ [])
    ∧ (renderBadgePng ⟨'M' :: 'a' :: 'r' :: 'i' :: 'a' :: [],
          some ('a' :: 'b' :: 'c' :: []), none, some 300, 80, 50, 0, none, none⟩).qrY
      + (renderBadgePng ⟨'M' :: 'a' :: 'r' :: 'i' :: 'a' :: [],
          some ('a' :: 'b' :: 'c' :: []), none, some 300, 80, 50, 0, none, none⟩).qrSize
      + (renderBadgePng ⟨'M' :: 'a' :: 'r' :: 'i' :: 'a' :: [],
          some ('a' :: 'b' :: 'c' :: []), none, some 300, 80, 50, 0, none,
          none⟩).reserveBelowQr
      ≤ (renderBadgePng ⟨'M' :: 'a' :: 'r' :: 'i' :: 'a' :: [],
          some ('a' :: 'b' :: 'c' :: []), none, some 300, 80, 50, 0, none,
          none⟩).contentHeight - 30 :=
  ⟨by decide,
    c5_qr_within_canvas ('M' :: 'a' :: 'r' :: 'i' :: 'a' :: [])
      ('a' :: 'b' :: 'c' :: []) none (some 300) 0 none none (by decide)⟩
